import Mathlib

/-!
# FinanceHub — verification of the metrics / portfolio / export layer

Shallow embedding of `src/utils/metrics_calculator.py`,
`src/utils/portfolio_manager.py`, `src/utils/data_exporter.py` and
`src/utils/cache_manager.py`.

Modelling conventions:
* pandas / numpy float columns are modelled by exact rationals `ℚ`; the
  IEEE special values that the code can actually produce (`inf`, `-inf`,
  `NaN`) are tracked explicitly by the type `XF` below, with the usual
  IEEE propagation rules for the arithmetic the code performs,
* a Python `dict` is an insertion-ordered association list,
* a pandas `DataFrame` of OHLCV rows is a `List Bar`,
* Python `try/except` blocks are modelled by explicit guards on exactly
  the conditions under which the guarded code raises.
-/

namespace FinanceHub

/-- Extended float value: an exact finite value, `+inf`, `-inf`, or `NaN`.
Finite values are exact rationals (no rounding is modelled; none of the
verified properties depends on rounding). -/
inductive XF where
  | fin : ℚ → XF
  | pinf : XF
  | ninf : XF
  | nan : XF
deriving DecidableEq, Repr, Inhabited

namespace XF

/-- IEEE negation. -/
def neg : XF → XF
  | fin a => fin (-a)
  | pinf => ninf
  | ninf => pinf
  | nan => nan

/-- IEEE addition (`inf + -inf = NaN`, `NaN` propagates). -/
def add : XF → XF → XF
  | nan, _ => nan
  | _, nan => nan
  | fin a, fin b => fin (a + b)
  | pinf, ninf => nan
  | ninf, pinf => nan
  | pinf, _ => pinf
  | _, pinf => pinf
  | ninf, _ => ninf
  | _, ninf => ninf

/-- IEEE subtraction. -/
def sub (x y : XF) : XF := add x (neg y)

/-- IEEE multiplication (`0 * inf = NaN`, `NaN` propagates). -/
def mul : XF → XF → XF
  | nan, _ => nan
  | _, nan => nan
  | fin a, fin b => fin (a * b)
  | fin a, pinf => if a = 0 then nan else if 0 < a then pinf else ninf
  | fin a, ninf => if a = 0 then nan else if 0 < a then ninf else pinf
  | pinf, fin b => if b = 0 then nan else if 0 < b then pinf else ninf
  | ninf, fin b => if b = 0 then nan else if 0 < b then ninf else pinf
  | pinf, pinf => pinf
  | pinf, ninf => ninf
  | ninf, pinf => ninf
  | ninf, ninf => pinf

/-- IEEE division with numpy's unsigned-zero convention: `x/0` is `+inf`
for `x > 0`, `-inf` for `x < 0`, `NaN` for `0/0`. -/
def div : XF → XF → XF
  | nan, _ => nan
  | _, nan => nan
  | fin a, fin b =>
      if b = 0 then (if 0 < a then pinf else if a < 0 then ninf else nan)
      else fin (a / b)
  | fin _, pinf => fin 0
  | fin _, ninf => fin 0
  | pinf, fin b => if b < 0 then ninf else pinf
  | ninf, fin b => if b < 0 then pinf else ninf
  | pinf, _ => nan
  | ninf, _ => nan

/-- `numpy` pairwise minimum: `NaN` propagates, otherwise numeric order. -/
def min2 : XF → XF → XF
  | nan, _ => nan
  | _, nan => nan
  | ninf, _ => ninf
  | _, ninf => ninf
  | pinf, b => b
  | a, pinf => a
  | fin a, fin b => fin (min a b)

/-- `np.min` over a non-empty list (the empty case is guarded in the code). -/
def minList : List XF → XF
  | [] => nan
  | x :: xs => xs.foldl min2 x

/-- `abs`. -/
def xabs : XF → XF
  | fin a => fin |a|
  | pinf => pinf
  | ninf => pinf
  | nan => nan

end XF

/-! ## Series helpers (pandas primitives used by the code) -/

/-- Arithmetic mean of a list of rationals (`Series.mean`, `np.mean`);
division by `0` for the empty list is never exercised by guarded calls. -/
def qmean (xs : List ℚ) : ℚ := xs.sum / (xs.length : ℚ)

/-- Population variance (`np.std(xs)²`, `ddof = 0`). -/
def popVariance (xs : List ℚ) : ℚ :=
  qmean (xs.map (fun x => (x - qmean xs) ^ 2))

/-- Sample variance (`Series.rolling(...).std()` uses `ddof = 1`). -/
def sampleVariance (xs : List ℚ) : ℚ :=
  (xs.map (fun x => (x - qmean xs) ^ 2)).sum / ((xs.length : ℚ) - 1)

/-- `xs.iloc[-k]` (with default `0`, only used where the index is valid). -/
def ilocBack (xs : List ℚ) (k : Nat) : ℚ := xs.getD (xs.length - k) 0

/-- The last `w` elements of `xs`. -/
def lastWindow (xs : List ℚ) (w : Nat) : List ℚ := xs.drop (xs.length - w)

/-- Last entry of `xs.rolling(window := w).mean()`: `NaN` (`none`) when
fewer than `w` observations exist, otherwise the mean of the last `w`. -/
def lastRollMean (xs : List ℚ) (w : Nat) : Option ℚ :=
  if xs.length < w then none else some (qmean (lastWindow xs w))

/-- Entry `i` of `xs.rolling(window := w).mean()`. -/
def rollMeanAt (xs : List ℚ) (w i : Nat) : Option ℚ :=
  if i + 1 < w then none else some (qmean ((xs.take (i + 1)).drop (i + 1 - w)))

/-- `Series.max()` of a non-empty list. -/
def seriesMax : List ℚ → ℚ
  | [] => 0
  | x :: xs => xs.foldl max x

/-- `Series.min()` of a non-empty list. -/
def seriesMin : List ℚ → ℚ
  | [] => 0
  | x :: xs => xs.foldl min x

/-- Python `int(q)`: truncation toward zero. -/
def pyInt (q : ℚ) : ℤ := if q < 0 then ⌈q⌉ else ⌊q⌋

/-! ## Data model -/

/-- One OHLCV bar of the fetched DataFrame.  The column set
`Date, Open, High, Low, Close, Volume, Dividends, Stock Splits` is the
provider schema (`StockDataFetcher.get_stock_data` returns the provider
frame with the date index reset into a `Date` column). -/
structure Bar where
  date : String
  openP : ℚ
  high : ℚ
  low : ℚ
  close : ℚ
  volume : ℚ
  dividends : ℚ
  stockSplits : ℚ
deriving DecidableEq, Repr, Inhabited

/-- The `Close` column. -/
def closes (data : List Bar) : List ℚ := data.map Bar.close

/-- Issuer metadata (`info` dict): a fixed set of independently optional
scalar fields (`info.get(key, default)`); `none` models an absent key. -/
structure StockInfo where
  marketCap : Option ℚ := none
  trailingPE : Option ℚ := none
  beta : Option ℚ := none
  dividendYield : Option ℚ := none
  longName : Option String := none
  sector : Option String := none
  industry : Option String := none
deriving DecidableEq, Repr, Inhabited

/-- `MetricsCalculator._format_market_cap`.  The `f"...:.2f"` decimal
rendering is modelled by printing the exact scaled rational; no verified
property depends on the printed digits. -/
def format_market_cap (mc : Option ℚ) : String :=
  match mc with
  | none => "N/A"
  | some m =>
    if m = 0 then "N/A"
    else if (10 : ℚ) ^ 12 ≤ m then "$" ++ toString (m / 10 ^ 12) ++ "T"
    else if (10 : ℚ) ^ 9 ≤ m then "$" ++ toString (m / 10 ^ 9) ++ "B"
    else if (10 : ℚ) ^ 6 ≤ m then "$" ++ toString (m / 10 ^ 6) ++ "M"
    else "$" ++ toString m

/-- `MetricsCalculator._format_percentage` (same rendering convention). -/
def format_percentage (v : Option ℚ) : String :=
  match v with
  | none => "N/A"
  | some q => if q = 0 then "N/A" else toString (q * 100) ++ "%"

/-- Result mapping of `MetricsCalculator.calculate_metrics`; `trailingPE`
and `beta` are `info.get(..., 'N/A')`, modelled as optional values. -/
structure Metrics where
  currentPrice : ℚ
  priceChange : ℚ
  percentChange : ℚ
  volume : ℤ
  avgVolume : ℤ
  marketCap : String
  trailingPE : Option ℚ
  high52 : ℚ
  low52 : ℚ
  beta : Option ℚ
  dividendYield : String
deriving DecidableEq, Repr

/-- `MetricsCalculator.calculate_metrics`.  `none` models the empty
mapping `{}` returned for an empty frame (the broad `except` path of the
source never fires on a well-typed frame/info, which this embedding's
types guarantee). -/
def calculate_metrics (data : List Bar) (info : StockInfo) : Option Metrics :=
  if data.isEmpty then none
  else
    let cs := closes data
    let current_price := ilocBack cs 1
    let previous_price := if 1 < data.length then ilocBack cs 2 else current_price
    let price_change := current_price - previous_price
    let percent_change :=
      if previous_price ≠ 0 then price_change / previous_price * 100 else 0
    some
      { currentPrice := current_price
        priceChange := price_change
        percentChange := percent_change
        volume := pyInt (ilocBack (data.map Bar.volume) 1)
        avgVolume := pyInt (qmean (data.map Bar.volume))
        marketCap := format_market_cap info.marketCap
        trailingPE := info.trailingPE
        high52 := seriesMax (data.map Bar.high)
        low52 := seriesMin (data.map Bar.low)
        beta := info.beta
        dividendYield := format_percentage info.dividendYield }

/-! ## RSI (`MetricsCalculator._calculate_rsi`) -/

/-- `prices.diff()`: `NaN` (`none`) at position 0, then successive
differences. -/
def diffs (prices : List ℚ) : List (Option ℚ) :=
  match prices with
  | [] => []
  | _ :: _ => none :: (prices.zip prices.tail).map (fun pr => some (pr.2 - pr.1))

/-- `delta.where(delta > 0, 0)`: a `NaN` delta fails the condition and is
replaced by `0`, so the gain series is `NaN`-free. -/
def gainSeries (prices : List ℚ) : List ℚ :=
  (diffs prices).map fun d =>
    match d with
    | some q => if 0 < q then q else 0
    | none => 0

/-- `(-delta.where(delta < 0, 0))`. -/
def lossSeries (prices : List ℚ) : List ℚ :=
  (diffs prices).map fun d =>
    match d with
    | some q => if q < 0 then -q else 0
    | none => 0

/-- The float pipeline `rs = gain/loss; rsi = 100 - 100/(1+rs)` evaluated
at the last index, with IEEE semantics (`x/0 = inf` for `x > 0`,
`0/0 = NaN`, rolling mean `NaN` when fewer than `period` observations). -/
def rsiRaw (prices : List ℚ) (period : Nat) : XF :=
  match lastRollMean (gainSeries prices) period,
        lastRollMean (lossSeries prices) period with
  | some g, some l =>
      XF.sub (.fin 100) (XF.div (.fin 100) (XF.add (.fin 1) (XF.div (.fin g) (.fin l))))
  | _, _ => XF.nan

/-- `MetricsCalculator._calculate_rsi` (period 14): the last pipeline
value if it is not `NaN`, else `50.0`; an empty series raises
`IndexError` inside the `try`, also yielding `50.0` (covered by the
`NaN` branch since the rolling mean of an empty series is `NaN`). -/
def _calculate_rsi (prices : List ℚ) : XF :=
  match rsiRaw prices 14 with
  | XF.nan => XF.fin 50
  | x => x

/-! ## Bollinger Bands (`MetricsCalculator._calculate_bollinger_bands`) -/

/-- Value of one Bollinger band: either the float `NaN`, or the exact
value `sma + k·√v` represented symbolically by the triple
`(sma, k, v)` (`v` is the rolling sample variance, so the band value is
`sma + k·√v`; the square root is kept symbolic to stay in exact
arithmetic). -/
inductive BandV where
  | nanB : BandV
  | val : ℚ → ℚ → ℚ → BandV
deriving DecidableEq, Repr

/-- Last entry of `prices.rolling(window := w).std()` as a sample
variance: `NaN` (`none`) when fewer than `w` observations exist. -/
def lastRollVar (xs : List ℚ) (w : Nat) : Option ℚ :=
  if xs.length < w then none else some (sampleVariance (lastWindow xs w))

/-- `MetricsCalculator._calculate_bollinger_bands` (period 20, k = 2):
`upper.iloc[-1], lower.iloc[-1]`.  On an empty series `iloc[-1]` raises
`IndexError` and the `except` returns `(0.0, 0.0)`; on a non-empty
series shorter than 20 bars the rolling values are `NaN` and are
returned unguarded. -/
def _calculate_bollinger_bands (prices : List ℚ) : BandV × BandV :=
  if prices.isEmpty then (BandV.val 0 0 0, BandV.val 0 0 0)
  else
    match lastRollMean prices 20, lastRollVar prices 20 with
    | some m, some v => (BandV.val m 2 v, BandV.val m (-2) v)
    | _, _ => (BandV.nanB, BandV.nanB)

/-! ## MACD (`MetricsCalculator._calculate_macd`) -/

/-- Accumulator form of `Series.ewm(span).mean()` with pandas defaults
(`adjust = True`):  `y_t = num_t / den_t` where `num_t = x_t + r·num_(t-1)`,
`den_t = 1 + r·den_(t-1)`, `r = 1 - 2/(span+1)`. -/
def ewmAux (r : ℚ) : List ℚ → ℚ → ℚ → List ℚ
  | [], _, _ => []
  | x :: xs, num, den =>
    let num' := x + r * num
    let den' := 1 + r * den
    (num' / den') :: ewmAux r xs num' den'

/-- `Series.ewm(span := s).mean()`. -/
def ewmMean (xs : List ℚ) (span : ℚ) : List ℚ :=
  ewmAux (1 - 2 / (span + 1)) xs 0 0

/-- `MetricsCalculator._calculate_macd` (12/26/9): on an empty series
`iloc[-1]` raises and the `except` returns `(0.0, 0.0)`. -/
def _calculate_macd (prices : List ℚ) : ℚ × ℚ :=
  if prices.isEmpty then (0, 0)
  else
    let macd_line := List.zipWith (· - ·) (ewmMean prices 12) (ewmMean prices 26)
    let macd_signal := ewmMean macd_line 9
    (ilocBack macd_line 1, ilocBack macd_signal 1)

/-- Result mapping of `MetricsCalculator.calculate_technical_indicators`. -/
structure TechIndicators where
  sma_20 : ℚ
  sma_50 : ℚ
  rsi : XF
  bb_upper : BandV
  bb_lower : BandV
  macd_line : ℚ
  macd_signal : ℚ
deriving DecidableEq, Repr

/-- `MetricsCalculator.calculate_technical_indicators`: `none` is the
empty mapping for an empty frame; `sma_20`/`sma_50` carry an explicit
`np.isnan` guard substituting `0`, the Bollinger entries do not. -/
def calculate_technical_indicators (data : List Bar) : Option TechIndicators :=
  if data.isEmpty then none
  else
    let cs := closes data
    let bb := _calculate_bollinger_bands cs
    let macd := _calculate_macd cs
    some
      { sma_20 := (lastRollMean cs 20).getD 0
        sma_50 := (lastRollMean cs 50).getD 0
        rsi := _calculate_rsi cs
        bb_upper := bb.1
        bb_lower := bb.2
        macd_line := macd.1
        macd_signal := macd.2 }

/-! ## Dataset export (`DataExporter.export_stock_historical_data`)

The exporter is modelled as the pure table it serialises: the network
fetch is a parameter (`none` models a failed / `None` fetch), and the
CSV text is modelled structurally as a header line plus rows of cells
(`to_csv` writes them in order; the fixed-precision float rendering is
immaterial to the verified shape properties). -/

/-- `Series.pct_change()` with IEEE semantics (`NaN` at position 0). -/
def pctChangeX (xs : List ℚ) : List XF :=
  match xs with
  | [] => []
  | _ :: _ =>
    XF.nan :: (xs.zip xs.tail).map (fun pr => XF.div (.fin (pr.2 - pr.1)) (.fin pr.1))

/-- All-finite projection of a float list (`none` if any entry is
`NaN`/`±inf`). -/
def finsOf? : List XF → Option (List ℚ)
  | [] => some []
  | XF.fin q :: xs => (finsOf? xs).map (q :: ·)
  | _ :: _ => none

/-- Entry `i` of `s.rolling(window := w).std()` over a float series `s`,
as a sample variance; `NaN` (`none`) when the window holds fewer than
`w` non-`NaN` observations (pandas counts observations against
`min_periods = w`, so the leading `pct_change` `NaN` voids early
windows).  A window containing `±inf` (zero price) is also mapped to
`none`. -/
def rollVarAt (xs : List XF) (w i : Nat) : Option ℚ :=
  if i + 1 < w then none
  else
    match finsOf? ((xs.take (i + 1)).drop (i + 1 - w)) with
    | some qs => some (sampleVariance qs)
    | none => none

/-- One CSV cell: a string, a float value, or the square root `√v` of an
exact value `v` (the rolling-std columns; kept symbolic for exactness). -/
inductive Cell where
  | str : String → Cell
  | num : XF → Cell
  | sqrtOf : ℚ → Cell
deriving DecidableEq, Repr

/-- Lift an optional rational to a float (`none` is `NaN`). -/
def optToX : Option ℚ → XF
  | some q => XF.fin q
  | none => XF.nan

/-- A rolling-std cell. -/
def stdCell (v : Option ℚ) : Cell :=
  match v with
  | some q => Cell.sqrtOf q
  | none => Cell.num XF.nan

/-- The provider frame's columns, in order. -/
def baseCols : List String :=
  ["Date", "Open", "High", "Low", "Close", "Volume", "Dividends", "Stock Splits"]

/-- The derived columns, in the order the source assigns them
(`export_data['...'] = ...`, lines 32–48). -/
def derivedCols : List String :=
  ["Daily_Change", "Daily_Change_Pct", "Price_Range", "Price_Range_Pct",
   "MA_7", "MA_20", "MA_50", "Volatility_7d", "Volatility_20d",
   "Volume_MA_20", "Volume_Ratio"]

/-- Column order of the exported table: the metadata dict (lines 51–71)
lists the base columns then the derived columns in assignment order, and
`pd.concat` keeps the first frame's column order. -/
def exportHeaderCols : List String := baseCols ++ derivedCols

/-- The metadata banner row (lines 51–71), one cell per column. -/
def bannerRow (info : StockInfo) (symbol period exportDate : String) : List Cell :=
  [Cell.str "METADATA",
   Cell.str ("Company: " ++ info.longName.getD "N/A"),
   Cell.str ("Sector: " ++ info.sector.getD "N/A"),
   Cell.str ("Industry: " ++ info.industry.getD "N/A"),
   Cell.str ("Market Cap: " ++ (info.marketCap.map toString).getD "N/A"),
   Cell.str ("Export Date: " ++ exportDate),
   Cell.str ("Symbol: " ++ symbol),
   Cell.str ("Period: " ++ period),
   Cell.str "START_OF_DATA",
   Cell.str "", Cell.str "", Cell.str "", Cell.str "", Cell.str "",
   Cell.str "", Cell.str "", Cell.str "", Cell.str "", Cell.str ""]

/-- Data row `i` of the enriched table (lines 32–48). -/
def dataRow (bars : List Bar) (i : Nat) : List Cell :=
  let b := bars.getD i default
  let cs := closes bars
  let vols := bars.map Bar.volume
  let volMA20 := rollMeanAt vols 20 i
  [Cell.str b.date,
   Cell.num (.fin b.openP),
   Cell.num (.fin b.high),
   Cell.num (.fin b.low),
   Cell.num (.fin b.close),
   Cell.num (.fin b.volume),
   Cell.num (.fin b.dividends),
   Cell.num (.fin b.stockSplits),
   Cell.num (.fin (b.close - b.openP)),
   Cell.num (XF.mul (XF.div (.fin (b.close - b.openP)) (.fin b.openP)) (.fin 100)),
   Cell.num (.fin (b.high - b.low)),
   Cell.num (XF.mul (XF.div (.fin (b.high - b.low)) (.fin b.low)) (.fin 100)),
   Cell.num (optToX (rollMeanAt cs 7 i)),
   Cell.num (optToX (rollMeanAt cs 20 i)),
   Cell.num (optToX (rollMeanAt cs 50 i)),
   stdCell (rollVarAt (pctChangeX cs) 7 i),
   stdCell (rollVarAt (pctChangeX cs) 20 i),
   Cell.num (optToX volMA20),
   Cell.num (XF.div (.fin b.volume) (optToX volMA20))]

/-- The serialised CSV: the header line and the rows, in file order. -/
structure CsvTable where
  header : List String
  rows : List (List Cell)
deriving DecidableEq, Repr

/-- `DataExporter.export_stock_historical_data`, given the fetched frame
(`fetched = none` models a failed fetch).  `none` as result models the
empty string `""` returned for missing/empty data and for any export
exception. -/
def export_stock_historical_data (fetched : Option (List Bar)) (info : StockInfo)
    (symbol period exportDate : String) : Option CsvTable :=
  match fetched with
  | none => none
  | some bars =>
    if bars.isEmpty then none
    else
      some
        { header := exportHeaderCols
          rows := bannerRow info symbol period exportDate ::
                  (List.range bars.length).map (dataRow bars) }

/-! ## Portfolio analytics (`PortfolioManager`)

Python dicts are insertion-ordered association lists; holdings are
`symbol ↦ {shares, purchase_price}` and price data `symbol ↦ frame`. -/

/-- One holding (`holdings[symbol]`). -/
structure Holding where
  shares : ℚ
  purchase_price : ℚ
deriving DecidableEq, Repr

/-- The `holdings` dict. -/
abbrev Holdings := List (String × Holding)

/-- The `all_data` dict. -/
abbrev DataMap := List (String × List Bar)

/-- `sum(h['shares'] * h['purchase_price'] for h in holdings.values())`
— the weight denominator (line 124), over ALL holdings. -/
def totalInvestmentAll (h : Holdings) : ℚ :=
  (h.map fun p => p.2.shares * p.2.purchase_price).sum

/-- The holdings the performance loop actually processes: those whose
symbol is present in `all_data` (line 110). -/
def presentHoldings (h : Holdings) (a : DataMap) : Holdings :=
  h.filter fun p => (a.lookup p.1).isSome

/-- The per-holding weight used for the weighted return (line 124):
investment over the all-holdings total. -/
def weightOf (h : Holdings) (p : String × Holding) : ℚ :=
  p.2.shares * p.2.purchase_price / totalInvestmentAll h

/-- `all_data[s]['Close'].iloc[-1]` (only used where the frame is
non-empty). -/
def lastCloseOf (a : DataMap) (s : String) : ℚ :=
  ilocBack (closes ((a.lookup s).getD [])) 1

/-- `(current_price - purchase_price) / purchase_price` (line 123). -/
def stockReturnOf (a : DataMap) (p : String × Holding) : ℚ :=
  (lastCloseOf a p.1 - p.2.purchase_price) / p.2.purchase_price

/-- The conditions under which the body of
`calculate_portfolio_performance` raises (caught by its `except`,
yielding the empty mapping): a processed holding hits an empty frame
(`iloc[-1]` → `IndexError`), a zero purchase price or a zero
all-holdings investment total (Python float division →
`ZeroDivisionError`). -/
def perfRaises (h : Holdings) (a : DataMap) : Bool :=
  h.any fun p =>
    (a.lookup p.1).isSome &&
      (((a.lookup p.1).getD []).isEmpty || decide (p.2.purchase_price = 0) ||
        decide (totalInvestmentAll h = 0))

/-- `len(next(iter(all_data.values())))` — the FIRST frame's length
(insertion order), used as the volatility loop bound (line 170). -/
def firstFrameLen (a : DataMap) : Nat :=
  match a with
  | [] => 0
  | p :: _ => p.2.length

/-- `min(len(data) for data in all_data.values())` — the shortest frame. -/
def minLength (a : DataMap) : Nat :=
  match a.map (fun p => p.2.length) with
  | [] => 0
  | n :: ns => ns.foldl min n

/-- `(close.iloc[-(i+1)] - close.iloc[-(i+2)]) / close.iloc[-(i+2)]`
(lines 175–177), with IEEE division. -/
def singleDayReturn (f : List Bar) (i : Nat) : XF :=
  let cs := closes f
  XF.div (.fin (ilocBack cs (i + 1) - ilocBack cs (i + 2))) (.fin (ilocBack cs (i + 2)))

/-- One day of the volatility loop (lines 171–180): holdings present in
`all_data` with more than `i + 1` bars contribute weight × single-day
return; the rest contribute nothing. -/
def dailyPortfolioReturn (h : Holdings) (a : DataMap) (i : Nat) : XF :=
  h.foldl
    (fun acc p =>
      match a.lookup p.1 with
      | some f =>
        if i + 1 < f.length then
          XF.add acc (XF.mul (.fin (p.2.shares * p.2.purchase_price / totalInvestmentAll h))
            (singleDayReturn f i))
        else acc
      | none => acc)
    (.fin 0)

/-- The daily return series the volatility helper builds: one entry per
`i in range(min(30, len(first_frame) - 1))`. -/
def _volDailyReturns (h : Holdings) (a : DataMap) : List XF :=
  (List.range (min 30 (firstFrameLen a - 1))).map (dailyPortfolioReturn h a)

/-- The volatility helper's own raise condition (caught, → `0.0`): the
weight division by a zero all-holdings total, reached iff the loop runs
and some processed holding qualifies. -/
def _volRaises (h : Holdings) (a : DataMap) : Bool :=
  decide (totalInvestmentAll h = 0) && decide (0 < min 30 (firstFrameLen a - 1)) &&
    h.any fun p =>
      match a.lookup p.1 with
      | some f => decide (1 < f.length)
      | none => false

/-- `PortfolioManager._calculate_portfolio_volatility` (days = 30).  The
Python value is `np.std(returns) * sqrt(252)`;  `some v` represents that
value as `√(252·v)` with `v` the population variance of the returns
(so the Python value is `0` iff `v = 0`), and `none` represents a `NaN`
result (a non-finite entry in the return series). -/
def _calculate_portfolio_volatility (h : Holdings) (a : DataMap) : Option ℚ :=
  if h.isEmpty || a.isEmpty then some 0
  else if _volRaises h a then some 0
  else
    let rets := _volDailyReturns h a
    if rets.isEmpty then some 0
    else
      match finsOf? rets with
      | some qs => some (popVariance qs)
      | none => none

/-- `np.maximum.accumulate` tail given the running maximum so far. -/
def runMaxAux (m : ℚ) : List ℚ → List ℚ
  | [] => []
  | x :: xs => max m x :: runMaxAux (max m x) xs

/-- `np.maximum.accumulate` (running peak, line 207). -/
def runningMax : List ℚ → List ℚ
  | [] => []
  | x :: xs => x :: runMaxAux x xs

/-- Per-bar portfolio value (lines 197–203): sum over holdings present
in `all_data` of `shares * close[i]`, for `i < min_length`. -/
def portfolioValues (h : Holdings) (a : DataMap) : List ℚ :=
  (List.range (minLength a)).map fun i =>
    h.foldl
      (fun acc p =>
        match a.lookup p.1 with
        | some f => acc + p.2.shares * (closes f).getD i 0
        | none => acc)
      0

/-- `(portfolio_values - peaks) / peaks` (line 208), with IEEE division
(`0/0` is `NaN`). -/
def drawdownsOf (vals : List ℚ) : List XF :=
  List.zipWith (fun v p => XF.div (.fin (v - p)) (.fin p)) vals (runningMax vals)

/-- `PortfolioManager._calculate_max_drawdown`: `abs(np.min(drawdowns))`
when non-empty, else `0.0`; empty holdings / data short-circuit to
`0.0`. -/
def _calculate_max_drawdown (h : Holdings) (a : DataMap) : XF :=
  if h.isEmpty || a.isEmpty then .fin 0
  else
    let dds := drawdownsOf (portfolioValues h a)
    if dds.isEmpty then .fin 0 else XF.xabs (XF.minList dds)

/-- The `sharpe_ratio` entry: `zero` is the literal `0` of the
volatility-not-positive branch; `ratioOf e v` is the exact value
`e / √(252·v)` of the division branch (`e` the weighted return minus the
risk-free rate, `v` the volatility variance, `v > 0`). -/
inductive SharpeV where
  | zero : SharpeV
  | ratioOf : ℚ → ℚ → SharpeV
deriving DecidableEq, Repr

/-- Is the computed volatility (`√(252·v)`, `NaN` for `none`) `> 0`?
(`NaN > 0` is false in Python.) -/
def volPos : Option ℚ → Bool
  | some v => decide (0 < v)
  | none => false

/-- Result mapping of `calculate_portfolio_performance`.
`volatility_var` carries the volatility representation of
`_calculate_portfolio_volatility` (dict entry = `100·√(252·v)`). -/
structure PortfolioPerf where
  total_investment : ℚ
  current_value : ℚ
  total_return : ℚ
  total_return_pct : ℚ
  weighted_return_pct : ℚ
  volatility_var : Option ℚ
  sharpe : SharpeV
  max_drawdown : XF
  number_of_stocks : Nat
deriving DecidableEq, Repr

/-- `PortfolioManager.calculate_portfolio_performance`: `none` models
the empty mapping returned by the `except` path. -/
def calculate_portfolio_performance (h : Holdings) (a : DataMap) : Option PortfolioPerf :=
  if perfRaises h a then none
  else
    let pres := presentHoldings h a
    let total_investment := (pres.map fun p => p.2.shares * p.2.purchase_price).sum
    let current_value := (pres.map fun p => p.2.shares * lastCloseOf a p.1).sum
    let weighted_returns := (pres.map fun p => stockReturnOf a p * weightOf h p).sum
    let total_return := current_value - total_investment
    let vv := _calculate_portfolio_volatility h a
    some
      { total_investment := total_investment
        current_value := current_value
        total_return := total_return
        total_return_pct :=
          if 0 < total_investment then total_return / total_investment * 100 else 0
        weighted_return_pct := weighted_returns * 100
        volatility_var := vv
        sharpe :=
          if volPos vv then SharpeV.ratioOf (weighted_returns - 1 / 50) (vv.getD 0)
          else SharpeV.zero
        max_drawdown := XF.mul (_calculate_max_drawdown h a) (.fin 100)
        number_of_stocks := h.length }

/-! ## Search history (`CacheManager.add_to_search_history`) -/

/-- `CacheManager.add_to_search_history` acting on the session history
list: uppercase, remove the first existing occurrence, insert at the
front, cap at `max_history = 10`. -/
def add_to_search_history (sym : String) (history : List String) : List String :=
  let s := sym.toUpper
  let h1 := if s ∈ history then history.erase s else history
  let h2 := s :: h1
  if 10 < h2.length then h2.take 10 else h2

/-- The history after a sequence of searches, from the fresh (empty)
session state. -/
def runHistory (syms : List String) : List String :=
  syms.foldl (fun h s => add_to_search_history s h) []

/-! ## General helper lemmas -/

theorem ilocBack_one_eq_getLast (xs : List ℚ) : ilocBack xs 1 = xs.getLast?.getD 0 := by
  rw [ilocBack, List.getD_eq_getElem?_getD, List.getLast?_eq_getElem?]

theorem ilocBack_two_eq_dropLast (xs : List ℚ) (h : 2 ≤ xs.length) :
    ilocBack xs 2 = xs.dropLast.getLast?.getD 0 := by
  rw [ilocBack, List.getD_eq_getElem?_getD, List.getLast?_eq_getElem?,
      List.length_dropLast, List.getElem?_dropLast, if_pos (by omega)]
  have he : xs.length - 1 - 1 = xs.length - 2 := by omega
  rw [he]

theorem ilocBack_mem (xs : List ℚ) (k : Nat) (hk : 0 < k) (h : k ≤ xs.length) :
    ilocBack xs k ∈ xs := by
  have hlt : xs.length - k < xs.length := by omega
  rw [ilocBack, List.getD_eq_getElem?_getD, List.getElem?_eq_getElem hlt]
  exact Option.getD_some ▸ List.getElem_mem hlt

/-! ## Claim theorems -/

/-- **C1.** For every OHLCVSeries with at least 2 bars and positive
closes, the Price Change and Percent Change returned by
`calculate_metrics` equal `close[-1] - close[-2]` and
`(close[-1] - close[-2]) / close[-2] * 100` exactly, including sign; for
a series with exactly one bar they are `0` and `0`; only an empty series
yields the empty-mapping result. -/
theorem C1_price_percent_change (data : List Bar) (info : StockInfo)
    (hpos : ∀ b ∈ data, 0 < b.close) :
    (2 ≤ data.length →
      ∃ m, calculate_metrics data info = some m ∧
        m.priceChange =
          (closes data).getLast?.getD 0 - (closes data).dropLast.getLast?.getD 0 ∧
        m.percentChange =
          ((closes data).getLast?.getD 0 - (closes data).dropLast.getLast?.getD 0) /
            (closes data).dropLast.getLast?.getD 0 * 100) ∧
    (data.length = 1 →
      ∃ m, calculate_metrics data info = some m ∧ m.priceChange = 0 ∧ m.percentChange = 0) ∧
    (calculate_metrics data info = none ↔ data = []) := by
  have hclen : (closes data).length = data.length := List.length_map _ _
  refine ⟨?_, ?_, ?_⟩
  · intro h2
    have hne : data.isEmpty = false := by
      rcases data with _ | _
      · simp at h2
      · rfl
    have hmem : ilocBack (closes data) 2 ∈ closes data :=
      ilocBack_mem _ 2 (by norm_num) (by omega)
    obtain ⟨b, hb, hbe⟩ := List.mem_map.mp hmem
    have hprev : 0 < ilocBack (closes data) 2 := hbe ▸ hpos b hb
    refine ⟨_, by simp only [calculate_metrics, hne, Bool.false_eq_true, if_false]; rfl, ?_, ?_⟩
    · simp only [if_pos (show 1 < data.length by omega)]
      rw [ilocBack_one_eq_getLast, ilocBack_two_eq_dropLast _ (by omega)]
    · simp only [if_pos (show 1 < data.length by omega), if_pos hprev.ne']
      rw [ilocBack_one_eq_getLast, ilocBack_two_eq_dropLast _ (by omega)]
  · intro h1
    have hne : data.isEmpty = false := by
      rcases data with _ | _
      · simp at h1
      · rfl
    refine ⟨_, by simp only [calculate_metrics, hne, Bool.false_eq_true, if_false]; rfl, ?_, ?_⟩
    · simp only [h1, lt_irrefl, if_false, sub_self]
    · simp only [h1, lt_irrefl, if_false, sub_self]
      split
      · rw [zero_div, zero_mul]
      · rfl
  · cases data <;> simp [calculate_metrics]

/-- Witness for C1 at the spec's concrete scenario 1:
closes `102, 101` give change `-1` and percent change `-50/51`. -/
theorem C1_witness :
    ∃ m, calculate_metrics
        [⟨"d1", 100, 105, 99, 102, 1000, 0, 0⟩, ⟨"d2", 102, 103, 100, 101, 1200, 0, 0⟩]
        {} = some m ∧
      m.priceChange = -1 ∧ m.percentChange = -50 / 51 := by
  obtain ⟨h2, -, -⟩ := C1_price_percent_change
    [⟨"d1", 100, 105, 99, 102, 1000, 0, 0⟩, ⟨"d2", 102, 103, 100, 101, 1200, 0, 0⟩]
    {} (by decide)
  obtain ⟨m, hm, hp, hpc⟩ := h2 (by decide)
  refine ⟨m, hm, ?_, ?_⟩
  · rw [hp]; norm_num [closes]
  · rw [hpc]; norm_num [closes]

theorem diffs_length (p : List ℚ) : (diffs p).length = p.length := by
  cases p with
  | nil => rfl
  | cons x xs => simp [diffs, List.length_zip]

theorem gainSeries_length (p : List ℚ) : (gainSeries p).length = p.length := by
  rw [gainSeries, List.length_map, diffs_length]

theorem lossSeries_length (p : List ℚ) : (lossSeries p).length = p.length := by
  rw [lossSeries, List.length_map, diffs_length]

theorem gainSeries_nonneg (p : List ℚ) : ∀ x ∈ gainSeries p, 0 ≤ x := by
  intro x hx
  obtain ⟨d, -, hd⟩ := List.mem_map.mp hx
  subst hd
  rcases d with _ | q
  · exact le_refl 0
  · dsimp only
    split
    · exact le_of_lt (by assumption)
    · exact le_refl 0

theorem lossSeries_nonneg (p : List ℚ) : ∀ x ∈ lossSeries p, 0 ≤ x := by
  intro x hx
  obtain ⟨d, -, hd⟩ := List.mem_map.mp hx
  subst hd
  rcases d with _ | q
  · exact le_refl 0
  · dsimp only
    split
    · have hq : q < 0 := by assumption
      linarith
    · exact le_refl 0

theorem lastRollMean_nonneg (xs : List ℚ) (w : Nat) (hx : ∀ x ∈ xs, 0 ≤ x) {m : ℚ}
    (hm : lastRollMean xs w = some m) : 0 ≤ m := by
  rw [lastRollMean] at hm
  split at hm
  · exact absurd hm (by simp)
  · obtain rfl : qmean (lastWindow xs w) = m := by injection hm
    apply div_nonneg
    · exact List.sum_nonneg fun x hxw => hx x (List.mem_of_mem_drop hxw)
    · positivity

/-- **C2 counterexample.** On the strictly increasing 14-bar close
series `1, 2, …, 14` the rolling loss average over the period is `0`,
yet `_calculate_rsi` returns `100.0` (the `rs = gain/0 = inf` path gives
`RSI = 100`, which is not `NaN`, so the `50.0` guard does not fire) —
refuting the claim that a zero loss average always yields `50.0`. -/
theorem C2_cex_loss_zero_gives_100 :
    ([1, 2, 3, 4, 5, 6, 7, 8, 9, 10, 11, 12, 13, 14] : List ℚ) ≠ [] ∧
    lastRollMean (lossSeries [1, 2, 3, 4, 5, 6, 7, 8, 9, 10, 11, 12, 13, 14]) 14 = some 0 ∧
    _calculate_rsi [1, 2, 3, 4, 5, 6, 7, 8, 9, 10, 11, 12, 13, 14] = XF.fin 100 ∧
    XF.fin (100 : ℚ) ≠ XF.fin 50 := by
  refine ⟨by simp, ?_, ?_, by simp⟩
  · norm_num [lastRollMean, lossSeries, diffs, lastWindow, qmean, List.zip, List.zipWith]
  · norm_num [_calculate_rsi, rsiRaw, gainSeries, lossSeries, diffs, lastRollMean, lastWindow,
      qmean, XF.div, XF.add, XF.sub, XF.neg, List.zip, List.zipWith]

/-- **C2 (amended).** For every non-empty close series:
the RSI is `50.0` when the series is shorter than the 14-bar period, and
when the gain and loss rolling averages are both `0` (the `0/0 = NaN`
case); when the loss average is `0` but the gain average is positive the
RSI is `100.0` (not `50.0`); in all cases the result is a finite value
in `[0, 100]` — never `NaN` or `±inf`, and (being total) never an
exception. -/
theorem C2_rsi_neutral_and_bounds (prices : List ℚ) (hne : prices ≠ []) :
    (prices.length < 14 → _calculate_rsi prices = XF.fin 50) ∧
    (lastRollMean (lossSeries prices) 14 = some 0 →
      (lastRollMean (gainSeries prices) 14 = some 0 → _calculate_rsi prices = XF.fin 50) ∧
      (∀ g, lastRollMean (gainSeries prices) 14 = some g → 0 < g →
        _calculate_rsi prices = XF.fin 100)) ∧
    (∃ q, _calculate_rsi prices = XF.fin q ∧ 0 ≤ q ∧ q ≤ 100) := by
  by_cases hlen : prices.length < 14
  · have hgnone : lastRollMean (gainSeries prices) 14 = none := by
      simp [lastRollMean, gainSeries_length, hlen]
    have hlnone : lastRollMean (lossSeries prices) 14 = none := by
      simp [lastRollMean, lossSeries_length, hlen]
    have h50 : _calculate_rsi prices = XF.fin 50 := by
      simp [_calculate_rsi, rsiRaw, hgnone]
    refine ⟨fun _ => h50, fun hl => absurd hl (by simp [hlnone]), 50, h50, by norm_num⟩
  · have hg : lastRollMean (gainSeries prices) 14
        = some (qmean (lastWindow (gainSeries prices) 14)) := by
      simp [lastRollMean, gainSeries_length, hlen]
    have hl : lastRollMean (lossSeries prices) 14
        = some (qmean (lastWindow (lossSeries prices) 14)) := by
      simp [lastRollMean, lossSeries_length, hlen]
    set g := qmean (lastWindow (gainSeries prices) 14) with hgdef
    set l := qmean (lastWindow (lossSeries prices) 14) with hldef
    have hg0 : 0 ≤ g := lastRollMean_nonneg _ 14 (gainSeries_nonneg prices) hg
    have hl0 : 0 ≤ l := lastRollMean_nonneg _ 14 (lossSeries_nonneg prices) hl
    refine ⟨fun h => absurd h hlen, ?_, ?_⟩
    · intro hlz
      have hlz' : l = 0 := by
        have := hl.symm.trans hlz
        injection this
      constructor
      · intro hgz
        have hgz' : g = 0 := by
          have := hg.symm.trans hgz
          injection this
        simp [_calculate_rsi, rsiRaw, hg, hl, hgz', hlz', XF.div, XF.add, XF.sub, XF.neg]
      · intro g' hg' hg'pos
        have hg'' : g = g' := by
          have := hg.symm.trans hg'
          injection this
        subst hg''
        have : _calculate_rsi prices = XF.fin (100 + -0) := by
          simp [_calculate_rsi, rsiRaw, hg, hl, hlz', XF.div, XF.add, XF.sub, XF.neg,
            hg'pos, hg'pos.ne', not_lt.mpr hg0]
        rw [this]; norm_num
    · rcases eq_or_lt_of_le hl0 with hlz | hlpos
      · rcases eq_or_lt_of_le hg0 with hgz | hgpos
        · refine ⟨50, ?_, by norm_num, by norm_num⟩
          simp [_calculate_rsi, rsiRaw, hg, hl, ← hgz, ← hlz, XF.div, XF.add, XF.sub, XF.neg]
        · refine ⟨100, ?_, by norm_num, by norm_num⟩
          have : _calculate_rsi prices = XF.fin (100 + -0) := by
            simp [_calculate_rsi, rsiRaw, hg, hl, ← hlz, XF.div, XF.add, XF.sub, XF.neg,
              hgpos, hgpos.ne', not_lt.mpr hg0]
          rw [this]; norm_num
      · have hrs : 0 ≤ g / l := div_nonneg hg0 (le_of_lt hlpos)
        have hden : (0 : ℚ) < 1 + g / l := by linarith
        refine ⟨100 + -(100 / (1 + g / l)), ?_, ?_, ?_⟩
        · simp [_calculate_rsi, rsiRaw, hg, hl, XF.div, XF.add, XF.sub, XF.neg,
            hlpos.ne', hden.ne']
        · have : 100 / (1 + g / l) ≤ 100 := div_le_self (by norm_num) (by linarith)
          linarith
        · have : 0 < 100 / (1 + g / l) := by positivity
          linarith

/-- Witness for the amended C2 at concrete inputs: a 3-bar series gives
the short-window fallback `50.0`, and on `1, …, 14` the bound clause
produces a finite value. -/
theorem C2_witness :
    _calculate_rsi [1, 2, 3] = XF.fin 50 ∧
    ∃ q, _calculate_rsi [1, 2, 3, 4, 5, 6, 7, 8, 9, 10, 11, 12, 13, 14] = XF.fin q ∧
      0 ≤ q ∧ q ≤ 100 := by
  constructor
  · exact (C2_rsi_neutral_and_bounds [1, 2, 3] (by simp)).1 (by simp)
  · exact (C2_rsi_neutral_and_bounds [1, 2, 3, 4, 5, 6, 7, 8, 9, 10, 11, 12, 13, 14]
      (by simp)).2.2

/-- **C3 (code bug).** The claim (and spec §4.1) say a non-empty close
series shorter than 20 bars yields `(0.0, 0.0)`.  The code's rolling
mean/std are `NaN` for such series and `_calculate_bollinger_bands`
returns them unguarded (no `np.isnan` check, unlike `sma_20`/`sma_50`
and RSI), so the single-bar series `[100.0]` yields `(NaN, NaN)`, which
also lands unguarded in the `bb_upper`/`bb_lower` entries of
`calculate_technical_indicators` — contradicting the documented
`(0.0, 0.0)` fallback. -/
theorem C3_bollinger_short_series_nan :
    _calculate_bollinger_bands [100] = (BandV.nanB, BandV.nanB) ∧
    (∃ t, calculate_technical_indicators [⟨"d1", 100, 101, 99, 100, 1000, 0, 0⟩] = some t ∧
      t.bb_upper = BandV.nanB ∧ t.bb_lower = BandV.nanB) ∧
    (BandV.nanB, BandV.nanB) ≠ (BandV.val 0 0 0, BandV.val 0 0 0) := by
  refine ⟨rfl, ⟨_, rfl, rfl, rfl⟩, by simp⟩

/-- **C4.** For every non-empty input series, the equities export has
exactly one row per input bar plus one banner row, its header columns
are exactly the documented 19 in order, and the banner row comes first
with the `METADATA` sentinel in the `Date` column. -/
theorem C4_export_shape (bars : List Bar) (info : StockInfo)
    (symbol period exportDate : String) (hne : bars ≠ []) :
    ∃ t, export_stock_historical_data (some bars) info symbol period exportDate = some t ∧
      t.header = ["Date", "Open", "High", "Low", "Close", "Volume", "Dividends",
        "Stock Splits", "Daily_Change", "Daily_Change_Pct", "Price_Range",
        "Price_Range_Pct", "MA_7", "MA_20", "MA_50", "Volatility_7d", "Volatility_20d",
        "Volume_MA_20", "Volume_Ratio"] ∧
      t.rows.length = bars.length + 1 ∧
      ∃ rest, t.rows = bannerRow info symbol period exportDate :: rest ∧
        rest.length = bars.length ∧
        (bannerRow info symbol period exportDate).head? = some (Cell.str "METADATA") := by
  have hne' : bars.isEmpty = false := by
    cases bars with
    | nil => exact absurd rfl hne
    | cons b bs => rfl
  refine ⟨{ header := exportHeaderCols,
            rows := bannerRow info symbol period exportDate ::
              (List.range bars.length).map (dataRow bars) }, ?_, rfl, ?_, _, rfl, ?_, rfl⟩
  · simp only [export_stock_historical_data, hne', Bool.false_eq_true, if_false]
  · simp
  · simp

/-- Witness for C4 on a concrete 2-bar series. -/
theorem C4_witness :
    ∃ t, export_stock_historical_data
        (some [⟨"d1", 100, 105, 99, 102, 1000, 0, 0⟩, ⟨"d2", 102, 103, 100, 101, 1200, 0, 0⟩])
        {} "AAPL" "1y" "2026-01-01" = some t ∧
      t.rows.length = 3 ∧ t.header.length = 19 := by
  obtain ⟨t, ht, hh, hr, -⟩ := C4_export_shape
    [⟨"d1", 100, 105, 99, 102, 1000, 0, 0⟩, ⟨"d2", 102, 103, 100, 101, 1200, 0, 0⟩]
    {} "AAPL" "1y" "2026-01-01" (by simp)
  exact ⟨t, ht, by rw [hr]; rfl, by rw [hh]; rfl⟩


theorem list_sum_map_div {α : Type} (l : List α) (f : α → ℚ) (c : ℚ) :
    (l.map fun x => f x / c).sum = (l.map f).sum / c := by
  induction l with
  | nil => simp
  | cons x xs ih => simp [ih, add_div]

/-- **C5 counterexample.** Two holdings with investment `100` each, but
price data present only for `"A"`: the per-holding weights the
performance loop uses (investment over the ALL-holdings total, line 124)
sum to `1/2`, not `1`, over the holdings present in both maps. -/
theorem C5_cex_weights_sum_half :
    ((presentHoldings [("A", ⟨1, 100⟩), ("B", ⟨1, 100⟩)]
        [("A", [⟨"d", 100, 100, 100, 100, 10, 0, 0⟩])]).map
      (weightOf [("A", ⟨1, 100⟩), ("B", ⟨1, 100⟩)])).sum = 1 / 2 ∧
    (1 / 2 : ℚ) ≠ 1 := by
  constructor
  · have hp : presentHoldings [("A", (⟨1, 100⟩ : Holding)), ("B", ⟨1, 100⟩)]
        [("A", [⟨"d", 100, 100, 100, 100, 10, 0, 0⟩])] = [("A", ⟨1, 100⟩)] := by rfl
    rw [hp]
    norm_num [weightOf, totalInvestmentAll]
  · norm_num

/-- **C5 (amended).** Each weight is the holding's investment divided by
the investment total over ALL holdings (whether or not their symbol has
price data); hence the weights over the holdings present in both maps
sum to `1` precisely when every holding's symbol is present in the price
map (and the total is non-zero), as below — and not in general (see the
counterexample). -/
theorem C5_weights_sum_one (h : Holdings) (a : DataMap)
    (hall : ∀ p ∈ h, (a.lookup p.1).isSome) (hT : totalInvestmentAll h ≠ 0) :
    ((presentHoldings h a).map (weightOf h)).sum = 1 := by
  have hfull : presentHoldings h a = h := List.filter_eq_self.mpr hall
  rw [hfull]
  have hw : weightOf h = fun p => p.2.shares * p.2.purchase_price / totalInvestmentAll h :=
    rfl
  rw [hw, list_sum_map_div h (fun p => p.2.shares * p.2.purchase_price) (totalInvestmentAll h)]
  exact div_self hT

/-- Witness for the amended C5: a single fully-covered holding has
weight sum `1`. -/
theorem C5_witness :
    ((presentHoldings [("A", ⟨2, 50⟩)] [("A", [⟨"d", 100, 100, 100, 100, 10, 0, 0⟩])]).map
      (weightOf [("A", ⟨2, 50⟩)])).sum = 1 := by
  exact C5_weights_sum_one [("A", ⟨2, 50⟩)] [("A", [⟨"d", 100, 100, 100, 100, 10, 0, 0⟩])]
    (by decide) (by norm_num [totalInvestmentAll])


/-! ### Drawdown helper lemmas -/

theorem foldl_min_le_self (ns : List Nat) (n : Nat) : ns.foldl min n ≤ n := by
  induction ns generalizing n with
  | nil => exact le_refl n
  | cons m ms ih => exact (ih (min n m)).trans (min_le_left n m)

theorem foldl_min_le_mem (ns : List Nat) (n : Nat) : ∀ x ∈ ns, ns.foldl min n ≤ x := by
  induction ns generalizing n with
  | nil => simp
  | cons m ms ih =>
    intro x hx
    rcases List.mem_cons.mp hx with rfl | hx
    · exact (foldl_min_le_self ms (min n x)).trans (min_le_right n x)
    · exact ih (min n m) x hx

theorem minLength_le_of_mem (a : DataMap) (p : String × List Bar) (hmem : p ∈ a) :
    minLength a ≤ p.2.length := by
  have hm : p.2.length ∈ a.map (fun q => q.2.length) := List.mem_map_of_mem _ hmem
  rw [minLength]
  cases hl : a.map (fun q => q.2.length) with
  | nil => rw [hl] at hm; simp at hm
  | cons n ns =>
    rw [hl] at hm
    show List.foldl min n ns ≤ p.2.length
    rcases List.mem_cons.mp hm with he | hm2
    · rw [he]; exact foldl_min_le_self ns n
    · exact foldl_min_le_mem ns n _ hm2

theorem lookup_mem {a : DataMap} {s : String} {f : List Bar}
    (hf : a.lookup s = some f) : (s, f) ∈ a := by
  obtain ⟨l₁, l₂, hsplit, -⟩ := List.lookup_eq_some_iff.mp hf
  rw [hsplit]
  simp

theorem holding_term_pos (a : DataMap) (i : Nat)
    (hcl : ∀ q ∈ a, ∀ b ∈ q.2, 0 < b.close) (hi : i < minLength a)
    (p : String × Holding) (hps : 0 < p.2.shares) (f : List Bar)
    (hf : a.lookup p.1 = some f) :
    0 < p.2.shares * (closes f).getD i 0 := by
  have hmem : (p.1, f) ∈ a := lookup_mem hf
  have hlen : i < (closes f).length := by
    rw [closes, List.length_map]
    exact lt_of_lt_of_le hi (minLength_le_of_mem a (p.1, f) hmem)
  have hclose : (closes f).getD i 0 ∈ closes f := by
    rw [List.getD_eq_getElem?_getD, List.getElem?_eq_getElem hlen]
    exact Option.getD_some ▸ List.getElem_mem hlen
  obtain ⟨b, hb, hbe⟩ := List.mem_map.mp hclose
  exact mul_pos hps (hbe ▸ hcl (p.1, f) hmem b hb)

theorem value_foldl_mono (a : DataMap) (i : Nat) :
    ∀ (h : Holdings) (acc : ℚ),
      (∀ p ∈ h, ∀ f, a.lookup p.1 = some f → 0 ≤ p.2.shares * (closes f).getD i 0) →
      acc ≤ h.foldl (fun acc p =>
        match a.lookup p.1 with
        | some f => acc + p.2.shares * (closes f).getD i 0
        | none => acc) acc := by
  intro h
  induction h with
  | nil => exact fun acc _ => le_refl acc
  | cons p ps ih =>
    intro acc hterm
    rw [List.foldl_cons]
    cases hf : a.lookup p.1 with
    | none =>
      simpa [hf] using ih acc fun q hq => hterm q (List.mem_cons_of_mem _ hq)
    | some f =>
      simp only [hf]
      calc acc ≤ acc + p.2.shares * (closes f).getD i 0 :=
            le_add_of_nonneg_right (hterm p (List.mem_cons_self _ _) f hf)
        _ ≤ _ := ih _ fun q hq => hterm q (List.mem_cons_of_mem _ hq)

theorem value_foldl_pos (a : DataMap) (i : Nat) :
    ∀ (h : Holdings) (acc : ℚ), 0 ≤ acc →
      (∀ p ∈ h, ∀ f, a.lookup p.1 = some f → 0 < p.2.shares * (closes f).getD i 0) →
      (∃ p ∈ h, (a.lookup p.1).isSome) →
      0 < h.foldl (fun acc p =>
        match a.lookup p.1 with
        | some f => acc + p.2.shares * (closes f).getD i 0
        | none => acc) acc := by
  intro h
  induction h with
  | nil =>
    rintro acc - - ⟨p, hp, -⟩
    simp at hp
  | cons p ps ih =>
    rintro acc hacc hterm ⟨p', hp', hp'some⟩
    rw [List.foldl_cons]
    rcases List.mem_cons.mp hp' with rfl | hmem
    · obtain ⟨f, hf⟩ := Option.isSome_iff_exists.mp hp'some
      have hpos := hterm p' (List.mem_cons_self _ _) f hf
      simp only [hf]
      calc (0 : ℚ) < acc + p'.2.shares * (closes f).getD i 0 := by linarith
        _ ≤ _ := value_foldl_mono a i ps _
            fun q hq f' hf' => (hterm q (List.mem_cons_of_mem _ hq) f' hf').le
    · cases hf : a.lookup p.1 with
      | none =>
        simp only [hf]
        exact ih acc hacc (fun q hq => hterm q (List.mem_cons_of_mem _ hq)) ⟨p', hmem, hp'some⟩
      | some f =>
        simp only [hf]
        have hstep : (0 : ℚ) ≤ acc + p.2.shares * (closes f).getD i 0 := by
          linarith [hterm p (List.mem_cons_self _ _) f hf]
        exact ih _ hstep (fun q hq => hterm q (List.mem_cons_of_mem _ hq)) ⟨p', hmem, hp'some⟩

theorem portfolioValues_pos (h : Holdings) (a : DataMap)
    (hsh : ∀ p ∈ h, 0 < p.2.shares)
    (hcl : ∀ q ∈ a, ∀ b ∈ q.2, 0 < b.close)
    (hpres : ∃ p ∈ h, (a.lookup p.1).isSome) :
    ∀ v ∈ portfolioValues h a, 0 < v := by
  intro v hv
  rw [portfolioValues] at hv
  obtain ⟨i, hi, rfl⟩ := List.mem_map.mp hv
  have hi' : i < minLength a := List.mem_range.mp hi
  exact value_foldl_pos a i h 0 (le_refl 0)
    (fun p hp f hf => holding_term_pos a i hcl hi' p (hsh p hp) f hf) hpres

theorem zip_runMaxAux_bounds (m : ℚ) (xs : List ℚ) (hpos : ∀ v ∈ xs, 0 < v) :
    ∀ d ∈ List.zipWith (fun v p => XF.div (.fin (v - p)) (.fin p)) xs (runMaxAux m xs),
      ∃ q, d = XF.fin q ∧ -1 < q ∧ q ≤ 0 := by
  induction xs generalizing m with
  | nil => simp
  | cons x xs ih =>
    intro d hd
    rw [runMaxAux, List.zipWith_cons_cons] at hd
    rcases List.mem_cons.mp hd with rfl | hd
    · have hx := hpos x (List.mem_cons_self _ _)
      have hp : 0 < max m x := lt_of_lt_of_le hx (le_max_right m x)
      refine ⟨(x - max m x) / max m x, by simp [XF.div, hp.ne'], ?_, ?_⟩
      · have h1 : (x - max m x) / max m x = x / max m x - 1 := by
          rw [sub_div, div_self hp.ne']
        have h2 : 0 < x / max m x := div_pos hx hp
        rw [h1]; linarith
      · exact div_nonpos_iff.mpr (Or.inr ⟨sub_nonpos.mpr (le_max_right m x), hp.le⟩)
    · exact ih (max m x) (fun v hv => hpos v (List.mem_cons_of_mem _ hv)) d hd

theorem drawdownsOf_bounds (vals : List ℚ) (hpos : ∀ v ∈ vals, 0 < v) :
    ∀ d ∈ drawdownsOf vals, ∃ q, d = XF.fin q ∧ -1 < q ∧ q ≤ 0 := by
  cases vals with
  | nil => simp [drawdownsOf, runningMax]
  | cons x xs =>
    intro d hd
    rw [drawdownsOf, runningMax, List.zipWith_cons_cons] at hd
    rcases List.mem_cons.mp hd with rfl | hd
    · have hx := hpos x (List.mem_cons_self _ _)
      refine ⟨0, ?_, by norm_num, le_refl 0⟩
      simp [XF.div, hx.ne', sub_self]
    · exact zip_runMaxAux_bounds x xs (fun v hv => hpos v (List.mem_cons_of_mem _ hv)) d hd

theorem foldl_min2_bounds (lo hi : ℚ) (l : List XF) :
    ∀ acc : ℚ, lo < acc → acc ≤ hi →
      (∀ d ∈ l, ∃ q, d = XF.fin q ∧ lo < q ∧ q ≤ hi) →
      ∃ q, l.foldl XF.min2 (XF.fin acc) = XF.fin q ∧ lo < q ∧ q ≤ hi := by
  induction l with
  | nil => exact fun acc h1 h2 _ => ⟨acc, rfl, h1, h2⟩
  | cons d ds ih =>
    intro acc h1 h2 hall
    obtain ⟨q, rfl, hq1, hq2⟩ := hall d (List.mem_cons_self _ _)
    rw [List.foldl_cons]
    have hm : XF.min2 (XF.fin acc) (XF.fin q) = XF.fin (min acc q) := rfl
    rw [hm]
    exact ih (min acc q) (lt_min h1 hq1) ((min_le_left _ _).trans h2)
      fun e he => hall e (List.mem_cons_of_mem _ he)

theorem minList_bounds (lo hi : ℚ) (l : List XF) (hne : l ≠ [])
    (hall : ∀ d ∈ l, ∃ q, d = XF.fin q ∧ lo < q ∧ q ≤ hi) :
    ∃ q, XF.minList l = XF.fin q ∧ lo < q ∧ q ≤ hi := by
  cases l with
  | nil => cases hne rfl
  | cons d ds =>
    obtain ⟨q, rfl, h1, h2⟩ := hall d (List.mem_cons_self _ _)
    exact foldl_min2_bounds lo hi ds q h1 h2 fun e he => hall e (List.mem_cons_of_mem _ he)

theorem runMaxAux_of_chain (xs : List ℚ) :
    ∀ m, List.Chain (· ≤ ·) m xs → runMaxAux m xs = xs := by
  induction xs with
  | nil => exact fun m _ => rfl
  | cons x xs ih =>
    intro m hch
    rw [List.chain_cons] at hch
    rw [runMaxAux, max_eq_right hch.1, ih x hch.2]

theorem runningMax_of_monotone (vals : List ℚ) (hch : List.Chain' (· ≤ ·) vals) :
    runningMax vals = vals := by
  cases vals with
  | nil => rfl
  | cons x xs => rw [runningMax, runMaxAux_of_chain xs x hch]

theorem zipWith_self_dd (vals : List ℚ) (hpos : ∀ v ∈ vals, 0 < v) :
    ∀ d ∈ List.zipWith (fun v p => XF.div (.fin (v - p)) (.fin p)) vals vals,
      d = XF.fin 0 := by
  induction vals with
  | nil => simp
  | cons x xs ih =>
    intro d hd
    rw [List.zipWith_cons_cons] at hd
    rcases List.mem_cons.mp hd with rfl | hd
    · have hx := hpos x (List.mem_cons_self _ _)
      simp [XF.div, hx.ne', sub_self]
    · exact ih (fun v hv => hpos v (List.mem_cons_of_mem _ hv)) d hd

theorem foldl_min2_zero (l : List XF) (hall : ∀ d ∈ l, d = XF.fin 0) :
    l.foldl XF.min2 (XF.fin 0) = XF.fin 0 := by
  induction l with
  | nil => rfl
  | cons d ds ih =>
    have hd : d = XF.fin 0 := hall d (List.mem_cons_self _ _)
    subst hd
    rw [List.foldl_cons]
    have hm : XF.min2 (XF.fin 0) (XF.fin 0) = XF.fin 0 := by
      simp [XF.min2]
    rw [hm]
    exact ih fun e he => hall e (List.mem_cons_of_mem _ he)

theorem minList_zero (l : List XF) (hne : l ≠ []) (hall : ∀ d ∈ l, d = XF.fin 0) :
    XF.minList l = XF.fin 0 := by
  cases l with
  | nil => cases hne rfl
  | cons d ds =>
    have hd : d = XF.fin 0 := hall d (List.mem_cons_self _ _)
    subst hd
    exact foldl_min2_zero ds fun e he => hall e (List.mem_cons_of_mem _ he)


/-- **C6 counterexample.** Holdings all have positive shares and all
price bars have positive closes, but no holding symbol appears in the
price map: every reconstructed portfolio value is `0`, the running peak
is `0`, and the drawdown `0/0` is `NaN`, so `_calculate_max_drawdown`
returns `NaN` — not a fraction in `[0, 1]` — refuting the claim as
universally stated. -/
theorem C6_cex_disjoint_maps_nan :
    (∀ p ∈ ([("A", (⟨1, 1⟩ : Holding))] : Holdings), 0 < p.2.shares) ∧
    (∀ q ∈ ([("B", [⟨"d", 1, 1, 1, 1, 1, 0, 0⟩])] : DataMap), ∀ b ∈ q.2, 0 < b.close) ∧
    _calculate_max_drawdown [("A", ⟨1, 1⟩)] [("B", [⟨"d", 1, 1, 1, 1, 1, 0, 0⟩])] = XF.nan ∧
    ∀ d : ℚ,
      _calculate_max_drawdown [("A", ⟨1, 1⟩)] [("B", [⟨"d", 1, 1, 1, 1, 1, 0, 0⟩])] ≠
        XF.fin d := by
  have h3 : _calculate_max_drawdown [("A", ⟨1, 1⟩)] [("B", [⟨"d", 1, 1, 1, 1, 1, 0, 0⟩])] =
      XF.nan := by
    norm_num [_calculate_max_drawdown, portfolioValues, minLength, drawdownsOf, runningMax,
      runMaxAux, XF.minList, XF.min2, XF.xabs, XF.div, List.lookup, List.range_succ, closes,
      show ("A" == "B") = false from rfl]
  refine ⟨by decide, by decide, h3, ?_⟩
  intro d hd
  rw [h3] at hd
  exact XF.noConfusion hd

/-- **C6 (amended).** For every holdings map with positive shares and
price-data map with positive closes such that at least one holding's
symbol is present in the price map, the maximum drawdown is a finite
fraction in `[0, 1]`, and it is `0` whenever the reconstructed per-bar
portfolio value series is monotonically non-decreasing.  (The presence
hypothesis is forced by the counterexample: with disjoint maps the value
series is identically `0` and the result is `NaN`.) -/
theorem C6_drawdown_bounds (h : Holdings) (a : DataMap)
    (hsh : ∀ p ∈ h, 0 < p.2.shares)
    (hcl : ∀ q ∈ a, ∀ b ∈ q.2, 0 < b.close)
    (hpres : ∃ p ∈ h, (a.lookup p.1).isSome) :
    (∃ d : ℚ, _calculate_max_drawdown h a = XF.fin d ∧ 0 ≤ d ∧ d ≤ 1) ∧
    (List.Chain' (· ≤ ·) (portfolioValues h a) →
      _calculate_max_drawdown h a = XF.fin 0) := by
  have hh : h.isEmpty = false := by
    obtain ⟨p, hp, -⟩ := hpres
    cases h with
    | nil => simp at hp
    | cons x xs => rfl
  have ha : a.isEmpty = false := by
    obtain ⟨p, -, hs⟩ := hpres
    obtain ⟨f, hf⟩ := Option.isSome_iff_exists.mp hs
    have : (p.1, f) ∈ a := lookup_mem hf
    cases a with
    | nil => simp at this
    | cons x xs => rfl
  rcases hvals : portfolioValues h a with - | ⟨v0, vrest⟩
  · have hdd : drawdownsOf (portfolioValues h a) = [] := by rw [hvals]; rfl
    have hres : _calculate_max_drawdown h a = XF.fin 0 := by
      rw [_calculate_max_drawdown, hh, ha]
      simp [hdd]
    exact ⟨⟨0, hres, le_refl 0, by norm_num⟩, fun _ => hres⟩
  · have hpos : ∀ v ∈ portfolioValues h a, 0 < v := portfolioValues_pos h a hsh hcl hpres
    have hddne : drawdownsOf (portfolioValues h a) ≠ [] := by
      rw [hvals, drawdownsOf, runningMax, List.zipWith_cons_cons]
      simp
    have hddE : (drawdownsOf (portfolioValues h a)).isEmpty = false := by
      cases hd : drawdownsOf (portfolioValues h a) with
      | nil => exact absurd hd hddne
      | cons x xs => rfl
    constructor
    · obtain ⟨q, hmin, hq1, hq2⟩ :=
        minList_bounds (-1) 0 _ hddne (drawdownsOf_bounds _ hpos)
    
      refine ⟨|q|, ?_, abs_nonneg q, ?_⟩
      · rw [_calculate_max_drawdown, hh, ha]
        simp only [Bool.or_self, Bool.false_eq_true, if_false, hddE, hmin]
        rfl
      · rw [abs_of_nonpos hq2]
        linarith
    · intro hch
      rw [← hvals] at hch
      have hdd0 : ∀ d ∈ drawdownsOf (portfolioValues h a), d = XF.fin 0 := by
        rw [drawdownsOf, runningMax_of_monotone _ hch]
        exact zipWith_self_dd _ hpos
      have hmin := minList_zero _ hddne hdd0
      rw [_calculate_max_drawdown, hh, ha]
      simp only [Bool.or_self, Bool.false_eq_true, if_false, hddE, hmin]
      simp [XF.xabs]

/-- Witness for the amended C6: one holding fully covered by a
monotonically increasing 2-bar frame gives drawdown `0` (and the bound
clause a value in `[0, 1]`). -/
theorem C6_witness :
    (∃ d : ℚ, _calculate_max_drawdown [("A", ⟨1, 1⟩)]
        [("A", [⟨"d1", 1, 1, 1, 1, 1, 0, 0⟩, ⟨"d2", 2, 2, 2, 2, 1, 0, 0⟩])] = XF.fin d ∧
      0 ≤ d ∧ d ≤ 1) ∧
    _calculate_max_drawdown [("A", ⟨1, 1⟩)]
        [("A", [⟨"d1", 1, 1, 1, 1, 1, 0, 0⟩, ⟨"d2", 2, 2, 2, 2, 1, 0, 0⟩])] = XF.fin 0 := by
  obtain ⟨h1, h2⟩ := C6_drawdown_bounds [("A", ⟨1, 1⟩)]
    [("A", [⟨"d1", 1, 1, 1, 1, 1, 0, 0⟩, ⟨"d2", 2, 2, 2, 2, 1, 0, 0⟩])]
    (by decide) (by decide) (by decide)
  refine ⟨h1, h2 ?_⟩
  have hv : portfolioValues [("A", (⟨1, 1⟩ : Holding))]
      [("A", [⟨"d1", 1, 1, 1, 1, 1, 0, 0⟩, ⟨"d2", 2, 2, 2, 2, 1, 0, 0⟩])] = [1, 2] := by
    norm_num [portfolioValues, minLength, List.range_succ, List.lookup, closes]
  rw [hv]
  norm_num [List.chain'_cons, List.chain'_singleton]


/-- **C7.** For every holdings map and price-data map, if the computed
portfolio volatility is `0` (`volatility_var = some 0`, i.e. the Python
value `√(252·0) = 0`) then the `sharpe_ratio` entry returned by
`calculate_portfolio_performance` is the literal `0` of the guard
branch, regardless of the weighted return — never `inf` or `NaN`. -/
theorem C7_sharpe_zero_when_vol_zero (h : Holdings) (a : DataMap) (m : PortfolioPerf)
    (hm : calculate_portfolio_performance h a = some m)
    (hv : m.volatility_var = some 0) :
    m.sharpe = SharpeV.zero := by
  rw [calculate_portfolio_performance] at hm
  split at hm
  · exact absurd hm (by simp)
  · injection hm with hm
    subst hm
    have hv' : _calculate_portfolio_volatility h a = some 0 := hv
    show (if volPos (_calculate_portfolio_volatility h a) = true then _ else SharpeV.zero) = _
    rw [hv']
    simp [volPos]

/-- Witness for C7: a single 1-bar holding yields zero volatility and a
zero Sharpe entry. -/
theorem C7_witness :
    ∃ m, calculate_portfolio_performance [("A", ⟨1, 100⟩)]
        [("A", [⟨"d", 100, 100, 100, 100, 10, 0, 0⟩])] = some m ∧
      m.volatility_var = some 0 ∧ m.sharpe = SharpeV.zero := by
  have hpr : perfRaises [("A", (⟨1, 100⟩ : Holding))]
      [("A", [⟨"d", 100, 100, 100, 100, 10, 0, 0⟩])] = false := by
    norm_num [perfRaises, totalInvestmentAll, List.lookup]
  have hvol : _calculate_portfolio_volatility [("A", (⟨1, 100⟩ : Holding))]
      [("A", [⟨"d", 100, 100, 100, 100, 10, 0, 0⟩])] = some 0 := by
    norm_num [_calculate_portfolio_volatility, _volRaises, _volDailyReturns, firstFrameLen]
  obtain ⟨m, hm⟩ : ∃ m, calculate_portfolio_performance [("A", (⟨1, 100⟩ : Holding))]
      [("A", [⟨"d", 100, 100, 100, 100, 10, 0, 0⟩])] = some m := by
    rw [calculate_portfolio_performance, if_neg (by simp [hpr])]
    exact ⟨_, rfl⟩
  have hv : m.volatility_var = some 0 := by
    rw [calculate_portfolio_performance, if_neg (by simp [hpr])] at hm
    injection hm with hm
    rw [← hm]
    exact hvol
  exact ⟨m, hm, hv, C7_sharpe_zero_when_vol_zero _ _ m hm hv⟩

theorem finsOf?_length (l : List XF) : ∀ qs : List ℚ, finsOf? l = some qs →
    qs.length = l.length := by
  induction l with
  | nil =>
    intro qs hl
    have h2 : ([] : List ℚ) = qs := by injection hl
    rw [← h2]
    rfl
  | cons x xs ih =>
    intro qs hl
    cases x with
    | fin q =>
      rw [finsOf?] at hl
      obtain ⟨ys, hys, rfl⟩ := Option.map_eq_some'.mp hl
      simp [ih ys hys]
    | pinf => exact absurd hl (by simp [finsOf?])
    | ninf => exact absurd hl (by simp [finsOf?])
    | nan => exact absurd hl (by simp [finsOf?])

theorem popVariance_singleton (x : ℚ) : popVariance [x] = 0 := by
  norm_num [popVariance, qmean]

/-- **C8 counterexample.** Two holdings; the first price frame has 3
bars, the second (and shortest) has 2.  The volatility loop builds
`min(30, len(first) - 1) = 2` daily returns, not the claimed
`min(30, shortest - 1) = 1` — the code takes the length of the FIRST
frame in iteration order (`next(iter(all_data.values()))`), not the
shortest. -/
theorem C8_cex_first_frame_bound :
    (_volDailyReturns [("A", ⟨1, 1⟩), ("B", ⟨1, 1⟩)]
      [("A", [⟨"d1", 1, 1, 1, 1, 1, 0, 0⟩, ⟨"d2", 1, 1, 1, 1, 1, 0, 0⟩,
              ⟨"d3", 1, 1, 1, 1, 1, 0, 0⟩]),
       ("B", [⟨"d1", 1, 1, 1, 1, 1, 0, 0⟩, ⟨"d2", 1, 1, 1, 1, 1, 0, 0⟩])]).length = 2 ∧
    min 30 (minLength
      [("A", [⟨"d1", 1, 1, 1, 1, 1, 0, 0⟩, ⟨"d2", 1, 1, 1, 1, 1, 0, 0⟩,
              ⟨"d3", 1, 1, 1, 1, 1, 0, 0⟩]),
       ("B", [⟨"d1", 1, 1, 1, 1, 1, 0, 0⟩, ⟨"d2", 1, 1, 1, 1, 1, 0, 0⟩])] - 1) = 1 ∧
    (2 : Nat) ≠ 1 := by
  refine ⟨?_, by norm_num [minLength], by norm_num⟩
  rw [_volDailyReturns, List.length_map, List.length_range]
  norm_num [firstFrameLen]

/-- **C8 (amended).** For non-empty holdings and data maps, absent the
caught zero-total exception and with finite daily returns, the
volatility helper builds its daily portfolio return series over exactly
the last `min(30, first_series_length − 1)` trading days (the FIRST
frame in insertion order, not the shortest; holdings whose series have
fewer than `offset + 2` bars contribute nothing on that day), and
returns `std(daily_returns)·√252` — represented by
`some (popVariance returns)`; when fewer than 2 usable days exist the
result is `0` (the standard deviation of an empty or singleton series). -/
theorem C8_volatility_series (h : Holdings) (a : DataMap)
    (hh : h.isEmpty = false) (ha : a.isEmpty = false)
    (hexc : _volRaises h a = false) (qs : List ℚ)
    (hfin : finsOf? (_volDailyReturns h a) = some qs) :
    _calculate_portfolio_volatility h a = some (popVariance qs) ∧
    (_volDailyReturns h a).length = min 30 (firstFrameLen a - 1) ∧
    ((_volDailyReturns h a).length < 2 →
      _calculate_portfolio_volatility h a = some 0) := by
  have hlen : (_volDailyReturns h a).length = min 30 (firstFrameLen a - 1) := by
    rw [_volDailyReturns, List.length_map, List.length_range]
  have hmain : _calculate_portfolio_volatility h a = some (popVariance qs) := by
    rw [_calculate_portfolio_volatility]
    simp only [hh, ha, Bool.or_self, Bool.false_eq_true, if_false, hexc]
    cases hre : (_volDailyReturns h a).isEmpty
    · simp only [Bool.false_eq_true, if_false, hfin]
    · have hnil : _volDailyReturns h a = [] := by
        cases hd : _volDailyReturns h a with
        | nil => rfl
        | cons x xs => rw [hd] at hre; exact absurd hre (by simp)
      rw [hnil] at hfin
      obtain rfl : ([] : List ℚ) = qs := by
        have : some ([] : List ℚ) = some qs := hfin
        injection this
      simp only [if_true]
      norm_num [popVariance, qmean]
  refine ⟨hmain, hlen, ?_⟩
  intro hlt
  rcases hq : qs with - | ⟨q, qs2⟩
  · rw [hq] at hmain
    rw [hmain]
    norm_num [popVariance, qmean]
  · have hql : qs.length = (_volDailyReturns h a).length := finsOf?_length _ qs hfin
    rcases hq2 : qs2 with - | ⟨q2, qs3⟩
    · rw [hq, hq2] at hmain
      rw [hmain, popVariance_singleton]
    · rw [hq, hq2] at hql
      simp at hql
      omega

/-- Witness for the amended C8: one holding with a 2-bar frame (closes
`1, 2`) gives exactly one daily return and volatility `0`. -/
theorem C8_witness :
    _calculate_portfolio_volatility [("A", ⟨1, 1⟩)]
      [("A", [⟨"d1", 1, 1, 1, 1, 1, 0, 0⟩, ⟨"d2", 2, 2, 2, 2, 1, 0, 0⟩])] = some 0 ∧
    (_volDailyReturns [("A", ⟨1, 1⟩)]
      [("A", [⟨"d1", 1, 1, 1, 1, 1, 0, 0⟩, ⟨"d2", 2, 2, 2, 2, 1, 0, 0⟩])]).length = 1 := by
  have hfin : finsOf? (_volDailyReturns [("A", (⟨1, 1⟩ : Holding))]
      [("A", [⟨"d1", 1, 1, 1, 1, 1, 0, 0⟩, ⟨"d2", 2, 2, 2, 2, 1, 0, 0⟩])]) = some [1] := by
    norm_num [_volDailyReturns, firstFrameLen, List.range_succ, dailyPortfolioReturn,
      List.lookup, singleDayReturn, ilocBack, closes, totalInvestmentAll, XF.add, XF.mul,
      XF.div, finsOf?]
  obtain ⟨h1, h2, h3⟩ := C8_volatility_series [("A", ⟨1, 1⟩)]
    [("A", [⟨"d1", 1, 1, 1, 1, 1, 0, 0⟩, ⟨"d2", 2, 2, 2, 2, 1, 0, 0⟩])] rfl rfl
    (by norm_num [_volRaises, totalInvestmentAll]) [1] hfin
  refine ⟨h3 ?_, ?_⟩
  · rw [h2]; norm_num [firstFrameLen]
  · rw [h2]; norm_num [firstFrameLen]

/-- **C9.** No operation propagates an exception: the embedding of every
boundary function is total, an empty series makes `calculate_metrics`
(and `calculate_technical_indicators`) return the empty mapping and the
exporter return the empty string (`none`), a missing fetch also yields
the empty string, and the portfolio-performance function returns the
empty mapping exactly on its caught-exception condition (never an
uncaught error). -/
theorem C9_boundary_fallbacks (info : StockInfo) (symbol period exportDate : String)
    (h : Holdings) (a : DataMap) :
    calculate_metrics [] info = none ∧
    calculate_technical_indicators [] = none ∧
    export_stock_historical_data none info symbol period exportDate = none ∧
    export_stock_historical_data (some []) info symbol period exportDate = none ∧
    (calculate_portfolio_performance h a = none ↔ perfRaises h a = true) := by
  refine ⟨rfl, rfl, rfl, rfl, ?_⟩
  rw [calculate_portfolio_performance]
  cases hpr : perfRaises h a
  · simp [hpr]
  · simp [hpr]


/-! ### Search-history helper lemmas -/

theorem head?_cap (x : String) (t : List String) :
    (if 10 < (x :: t).length then List.take 10 (x :: t) else x :: t).head? = some x := by
  split
  · rw [show (10 : Nat) = 9 + 1 from rfl, List.take_succ_cons, List.head?_cons]
  · rw [List.head?_cons]

theorem cap_length_le (l2 : List String) :
    (if 10 < l2.length then List.take 10 l2 else l2).length ≤ 10 := by
  split
  · rw [List.length_take]
    exact min_le_left _ _
  · next h => omega

theorem cap_nodup (l2 : List String) (h : l2.Nodup) :
    (if 10 < l2.length then List.take 10 l2 else l2).Nodup := by
  split
  · exact List.Nodup.sublist (List.take_sublist _ _) h
  · exact h

theorem cap_mem {P : String → Prop} (l2 : List String) (hall : ∀ y ∈ l2, P y) :
    ∀ y ∈ (if 10 < l2.length then List.take 10 l2 else l2), P y := by
  split
  · exact fun y hy => hall y ((List.take_sublist _ _).subset hy)
  · exact hall

theorem add_history_head (s : String) (l : List String) :
    (add_to_search_history s l).head? = some s.toUpper := by
  rw [add_to_search_history]
  exact head?_cap s.toUpper _

theorem add_history_invariant (s : String) (l : List String) (h2 : l.Nodup) :
    (add_to_search_history s l).length ≤ 10 ∧ (add_to_search_history s l).Nodup ∧
    ∀ x ∈ add_to_search_history s l, x = s.toUpper ∨ x ∈ l := by
  rw [add_to_search_history]
  have hnd : (s.toUpper :: if s.toUpper ∈ l then l.erase s.toUpper else l).Nodup := by
    rw [List.nodup_cons]
    split
    · exact ⟨h2.not_mem_erase, h2.erase _⟩
    · next hm => exact ⟨hm, h2⟩
  have hmem : ∀ y ∈ (s.toUpper :: if s.toUpper ∈ l then l.erase s.toUpper else l),
      y = s.toUpper ∨ y ∈ l := by
    intro y hy
    rcases List.mem_cons.mp hy with rfl | hy
    · exact Or.inl rfl
    · refine Or.inr ?_
      split at hy
      · exact List.mem_of_mem_erase hy
      · exact hy
  exact ⟨cap_length_le _, cap_nodup _ hnd, cap_mem _ hmem⟩

theorem add_history_length_of_mem (s : String) (l : List String)
    (hlen : l.length ≤ 10) (hmem : s.toUpper ∈ l) :
    (add_to_search_history s l).length = l.length := by
  rw [add_to_search_history]
  have hne : l ≠ [] := List.ne_nil_of_mem hmem
  have hl1 : (l.erase s.toUpper).length = l.length - 1 := List.length_erase_of_mem hmem
  have hpos : 0 < l.length := List.length_pos.mpr hne
  simp only [if_pos hmem]
  have hlen2 : (s.toUpper :: l.erase s.toUpper).length = l.length := by
    rw [List.length_cons, hl1]
    omega
  have hc : ¬ 10 < (s.toUpper :: l.erase s.toUpper).length := by
    rw [hlen2]
    omega
  rw [if_neg hc, hlen2]

theorem foldl_history_invariant (syms : List String) :
    ∀ l : List String, l.length ≤ 10 → l.Nodup →
      (syms.foldl (fun h s => add_to_search_history s h) l).length ≤ 10 ∧
      (syms.foldl (fun h s => add_to_search_history s h) l).Nodup ∧
      ∀ x ∈ syms.foldl (fun h s => add_to_search_history s h) l,
        (∃ s₀ ∈ syms, x = s₀.toUpper) ∨ x ∈ l := by
  induction syms with
  | nil => exact fun l h1 h2 => ⟨h1, h2, fun x hx => Or.inr hx⟩
  | cons s ss ih =>
    intro l h1 h2
    rw [List.foldl_cons]
    obtain ⟨a1, a2, a3⟩ := add_history_invariant s l h2
    obtain ⟨b1, b2, b3⟩ := ih (add_to_search_history s l) a1 a2
    refine ⟨b1, b2, ?_⟩
    intro x hx
    rcases b3 x hx with ⟨s₀, hs₀, he⟩ | hx2
    · exact Or.inl ⟨s₀, List.mem_cons_of_mem _ hs₀, he⟩
    · rcases a3 x hx2 with he | hx3
      · exact Or.inl ⟨s, List.mem_cons_self _ _, he⟩
      · exact Or.inr hx3

/-- **C10.** After any sequence of `add_to_search_history` calls
(starting from the fresh session state), the history has at most 10
entries, no duplicates, every entry is the uppercased form of a searched
symbol, and the most recently added symbol sits uppercased at the front;
re-adding a symbol already present keeps the length unchanged (it is
moved to the front). -/
theorem C10_search_history_invariants (syms : List String) (s : String) :
    (runHistory syms).length ≤ 10 ∧
    (runHistory syms).Nodup ∧
    (∀ x ∈ runHistory syms, ∃ s₀ ∈ syms, x = s₀.toUpper) ∧
    (add_to_search_history s (runHistory syms)).head? = some s.toUpper ∧
    (s.toUpper ∈ runHistory syms →
      (add_to_search_history s (runHistory syms)).length = (runHistory syms).length) := by
  obtain ⟨h1, h2, h3⟩ := foldl_history_invariant syms [] (by norm_num) List.nodup_nil
  refine ⟨h1, h2, ?_, add_history_head s (runHistory syms), ?_⟩
  · intro x hx
    rcases h3 x hx with he | hx2
    · exact he
    · simp at hx2
  · intro hmem
    exact add_history_length_of_mem s (runHistory syms) h1 hmem

/-- Witness for C10: after searching `msft` then `aapl`, re-adding
`aapl` (lower case) keeps the 2-entry history length. -/
theorem C10_witness :
    (add_to_search_history "aapl" (runHistory ["msft", "aapl"])).length =
      (runHistory ["msft", "aapl"]).length := by
  have hmem : "aapl".toUpper ∈ runHistory ["msft", "aapl"] := by
    refine List.mem_of_mem_head? (Option.mem_def.mpr ?_)
    exact add_history_head "aapl" (add_to_search_history "msft" [])
  exact (C10_search_history_invariants ["msft", "aapl"] "aapl").2.2.2.2 hmem

end FinanceHub
